import Mathlib

/-!
Verification of the mesh-construction and export core of the `st_meshview`
repository (`pkg/model.py`, `pkg/view.py`, `meshview.py`) against its
natural-language specification.

The grid-to-polygon engine (`Meshs.set_gdf`) is embedded as a pure function
over lists of point records with exact rational coordinates.  The export
helpers (`zip_plot`, `zip_map`, `zip_gis`) are embedded over the logical
content of the archives they build; the third-party serializers they call
(matplotlib `savefig`, plotly `to_html`, geopandas `to_file`, pyproj
`CRS.from_epsg`) are parameters of the embedding, since only the repository's
own glue logic is under verification.
-/

namespace MeshView

/-- One row of the user input table: integer grid indices `I`, `J`, point
coordinates `X`, `Y` and the mesh attribute value (column `col_v`). -/
structure Row where
  i : ℤ
  j : ℤ
  x : ℚ
  y : ℚ
  v : ℚ
deriving DecidableEq, Repr

/-- The `(I, J)` key of a row. -/
def keyOf (r : Row) : ℤ × ℤ := (r.i, r.j)

/-- Row comparison used by `df.sort_values([col_i, col_j])`: ascending
lexicographic order on `(I, J)`. -/
def rowLe (r s : Row) : Prop := r.i < s.i ∨ (r.i = s.i ∧ r.j ≤ s.j)

instance : DecidableRel rowLe :=
  fun r s => inferInstanceAs (Decidable (r.i < s.i ∨ (r.i = s.i ∧ r.j ≤ s.j)))

instance : IsTotal Row rowLe :=
  ⟨fun a b => by unfold rowLe; omega⟩

instance : IsTrans Row rowLe :=
  ⟨fun a b c hab hbc => by unfold rowLe at hab hbc ⊢; omega⟩

/-- `df.sort_values([col_i, col_j])`.  pandas uses an arbitrary comparison
sort; we use insertion sort, which agrees with it whenever the sort result is
unique, in particular on tables with pairwise distinct `(I, J)` keys.  (On
the one concrete malformed input used below the duplicated rows are
identical, so the result is again sort-algorithm independent.) -/
def sortRows (rows : List Row) : List Row := List.insertionSort rowLe rows

/-- `df[col].nunique()`: number of distinct values in a column. -/
def nunique (l : List ℤ) : ℕ := l.dedup.length

/-- `df[col].max()`: maximum of a column (`0` for the empty table, which the
callers never pass). -/
def colMax (l : List ℤ) : ℤ :=
  match l with
  | [] => 0
  | x :: xs => xs.foldl max x

/-- One mesh cell of the produced GeoDataFrame: the retained columns
`col_i`, `col_j`, `col_v` and the polygon geometry.  The ring is the
shapely exterior ring; a vertex is `none` when the corresponding shifted
coordinate was NaN (row offset past the end of the table). -/
structure Cell where
  i : ℤ
  j : ℤ
  v : ℚ
  ring : List (Option (ℚ × ℚ))
deriving DecidableEq, Repr

/-- Coordinate pair of the row at position `m` of the sorted table, `none`
past the end.  `ptAt s (k+o)` is the value the shifted columns
(`df.shift(-o)`) carry at row `k`. -/
def ptAt (s : List Row) (m : ℕ) : Option (ℚ × ℚ) :=
  (s[m]?).map fun r => (r.x, r.y)

/-- `shapely.geometry.Polygon` closes its exterior ring by repeating the
first vertex. -/
def mkRing (ps : List (Option (ℚ × ℚ))) : List (Option (ℚ × ℚ)) :=
  ps ++ ps.take 1

/-- `Meshs.set_gdf`: sort by `(I, J)`; attach the coordinates of the rows at
offsets `1`, `cnt_j + 1` and `cnt_j` (shifted columns `Xpt2/Ypt2`,
`Xpt3/Ypt3`, `Xpt4/Ypt4`); drop the rows at `max_i` or `max_j`; build one
closed quadrilateral per remaining row.  `k` is the row's position in the
sorted table. -/
def set_gdf (rows : List Row) : List Cell :=
  (List.range (sortRows rows).length).filterMap fun k =>
    ((sortRows rows)[k]?).bind fun r =>
      if r.i ≠ colMax (rows.map Row.i) ∧ r.j ≠ colMax (rows.map Row.j) then
        some { i := r.i, j := r.j, v := r.v,
               ring := mkRing [ptAt (sortRows rows) k,
                               ptAt (sortRows rows) (k + 1),
                               ptAt (sortRows rows) (k + nunique (rows.map Row.j) + 1),
                               ptAt (sortRows rows) (k + nunique (rows.map Row.j))] }
      else none

/-- The `Meshs` object: optional EPSG code and the mesh GeoDataFrame. -/
structure Meshs where
  epsg : Option ℤ
  gdf : List Cell
deriving DecidableEq, Repr

/-- `Meshs.__init__`: stores the EPSG code and calls `set_gdf`. -/
def Meshs.build (rows : List Row) (epsg : Option ℤ) : Meshs :=
  { epsg := epsg, gdf := set_gdf rows }

/-- Data selection of `Meshs.choropleth_map` (the plotly figure construction
itself is external rendering): if `dummy_v` is set, drop the cells whose
value equals it, on a copy of the dataset; the `Meshs` state is returned
unchanged. -/
def Meshs.choropleth_map (m : Meshs) (dummy_v : Option ℚ) : List Cell × Meshs :=
  match dummy_v with
  | some d => (m.gdf.filter fun c => decide (c.v ≠ d), m)
  | none => (m.gdf, m)

/-- Data selection of `Meshs.plot` (the matplotlib figure construction
itself is external rendering): identical dummy-value filtering on a copy. -/
def Meshs.plot (m : Meshs) (dummy_v : Option ℚ) : List Cell × Meshs :=
  match dummy_v with
  | some d => (m.gdf.filter fun c => decide (c.v ≠ d), m)
  | none => (m.gdf, m)

/-- Image formats offered for the static-plot download (`model.EXT_PLOT`). -/
def EXT_PLOT : List String := ["png", "pdf", "svg"]

/-- A filesystem path, as produced by `os.path.join(dir, name)`;
`os.path.basename` returns the `name` component. -/
structure PathT where
  dir : String
  name : String
deriving DecidableEq, Repr

def joinPath (dir name : String) : PathT := { dir := dir, name := name }

def basename (p : PathT) : String := p.name

/-- Logical content of a produced zip archive: entry names with their byte
payloads, plus whether the call allocated a temporary directory. -/
structure ExportResult where
  entries : List (String × String)
  usedTmpDir : Bool
deriving DecidableEq, Repr

/-- `Meshs.zip_plot`: saves the figure as `plot.<ext>` inside a fresh
temporary directory and zips that single file under its basename.
`tmpdir` is the name `tempfile.TemporaryDirectory` returned; `figSave ext`
is the byte content `fig.savefig` writes for the requested extension. -/
def Meshs.zip_plot (_m : Meshs) (tmpdir : String) (figSave : String → String)
    (ext : String) : ExportResult :=
  { entries := [(basename (joinPath tmpdir ("plot" ++ "." ++ ext)), figSave ext)],
    usedTmpDir := true }

/-- `Meshs.zip_map`: writes `fig.to_html()` directly into the zip with
`writestr` — no temporary directory, no file on disk.  `figHtml` is the
figure's HTML serialization. -/
def Meshs.zip_map (_m : Meshs) (figHtml : String) : ExportResult :=
  { entries := [("map" ++ ".html", figHtml)], usedTmpDir := false }

/-- A Python warning emitted while `gdf.to_file` runs; `isUserWarning` is
whether its category is `UserWarning` (the "crs was not provided" advisory
for a dataset without spatial reference is one). -/
structure GisWarning where
  isUserWarning : Bool
  message : String
deriving DecidableEq, Repr

/-- Result of `Meshs.zip_gis`: the archive plus the warnings that escaped
the `warnings.catch_warnings` block. -/
structure GisResult where
  archive : ExportResult
  surfacedWarnings : List GisWarning
deriving DecidableEq, Repr

/-- `Meshs.zip_gis`: inside a fresh temporary directory `tmpdir`, runs
`gdf.to_file` under `warnings.catch_warnings(action='ignore',
category=UserWarning)`, then zips every file matching `mesh.*` under its
basename.  `written` is the list of (relative name, bytes) sibling files the
GIS driver produced in `tmpdir`; `emitted` is the warnings it raised. -/
def Meshs.zip_gis (_m : Meshs) (tmpdir : String)
    (written : List (String × String)) (emitted : List GisWarning) : GisResult :=
  { archive :=
      { entries := (written.filter fun f => f.1.startsWith ("mesh" ++ ".")).map
          fun f => (basename (joinPath tmpdir f.1), f.2),
        usedTmpDir := true },
    surfacedWarnings := emitted.filter fun w => !w.isUserWarning }

/-- `view.caption_crs_name`: tries `CRS.from_epsg(epsg)`; returns `True` on
success and `False` when pyproj raises `CRSError` (the caption it prints is
UI).  `resolveEpsg` is pyproj's resolution: `some name` or failure. -/
def caption_crs_name (resolveEpsg : ℤ → Option String) (epsg : ℤ) : Bool :=
  (resolveEpsg epsg).isSome

/-- `meshview.main`, step 1: if an EPSG code was entered but
`caption_crs_name` reports it invalid, the session's EPSG is reset to
`None`. -/
def main_validate_epsg (resolveEpsg : ℤ → Option String) (epsg : Option ℤ) : Option ℤ :=
  match epsg with
  | none => none
  | some e => if caption_crs_name resolveEpsg e then some e else none

/-- `meshview.main`, step 3: the plotly choropleth map is rendered iff the
session has an EPSG code; otherwise the planar matplotlib plot is used. -/
def renders_map (epsg : Option ℤ) : Bool := epsg.isSome

/-- The `(I, J)` columns of the dense row-major grid `df_manual` that
`meshview.main` builds for `cnt_i × cnt_j` points starting at `ij_start`. -/
def canonicalKeys (start : ℤ) (cI cJ : ℕ) : List (ℤ × ℤ) :=
  (List.range cI).flatMap fun (a : ℕ) => (List.range cJ).map fun (b : ℕ) =>
    (start + (a : ℤ), start + (b : ℤ))

/-- Order on labeled upload rows used by `sort_values`: compare by the
row's `(I, J)` key; the label — the row's original position in the file —
travels along with it. -/
def labelLe (p q : ℕ × Row) : Prop := rowLe p.2 q.2

instance : DecidableRel labelLe :=
  fun p q => inferInstanceAs (Decidable (rowLe p.2 q.2))

/-- `df_upload[['I','J']].sort_values(['I','J'])`: `pd.read_csv` labels the
rows `0, 1, …` in file order, and sorting keeps those labels, so the sorted
frame is a labeled permutation of the upload.  pandas' quicksort is not
stable while this embedding sorts stably, but the acceptance verdict of
`is_correct_ij` is the same either way: the sorted labels can read
`0, 1, …, n-1` only if the file was already weakly key-sorted, and then
either all keys are distinct — every correct sort returns the same frame —
or some key is duplicated, in which case the cell-wise comparison against
the duplicate-free `df_manual` fails just as a permuted-label `ValueError`
would. -/
def sort_values_ij (rows : List Row) : List (ℕ × Row) :=
  List.insertionSort labelLe ((List.range rows.length).zip rows)

/-- The upload-acceptance check of `meshview.main`: the pandas comparison
`df_manual[['I','J']] == df_upload[['I','J']].sort_values(['I','J'])`
raises `ValueError` — caught, yielding `False` — unless the two frames are
identically labeled, i.e. unless the sorted upload still carries the labels
`0, 1, …, cnt_i*cnt_j - 1` in that order; only then are the `(I, J)` cells
compared against the dense row-major grid of `df_manual`. -/
def is_correct_ij (start : ℤ) (cI cJ : ℕ) (rows : List Row) : Bool :=
  if (sort_values_ij rows).map Prod.fst = List.range (cI * cJ) then
    decide ((sort_values_ij rows).map (fun p => keyOf p.2) = canonicalKeys start cI cJ)
  else false

/-- A dense rectangular grid presented through a corner function `f`:
`f a b` is the point record at grid offsets `(a, b)`.  A valid input table
is any permutation of this list. -/
def canonicalRows (f : ℕ → ℕ → Row) (cI cJ : ℕ) : List Row :=
  (List.range cI).flatMap fun a => (List.range cJ).map fun b => f a b

/-- The same grid enumerated by flat row position `k` of the row-major
order. -/
def flatRows (f : ℕ → ℕ → Row) (cJ n : ℕ) : List Row :=
  (List.range n).map fun k => f (k / cJ) (k % cJ)

/-- Specification-side description of one produced cell (spec §4.1 steps
4–5): the cell owned by the point at grid offsets `(a, b)`, with the closed
corner ring `(a,b), (a,b+1), (a+1,b+1), (a+1,b)` — self, next-J, diagonal,
next-I — and the owning corner's attribute value. -/
def cellAt (f : ℕ → ℕ → Row) (start : ℤ) (a b : ℕ) : Cell :=
  { i := start + (a : ℤ), j := start + (b : ℤ), v := (f a b).v,
    ring := [some ((f a b).x, (f a b).y),
             some ((f a (b + 1)).x, (f a (b + 1)).y),
             some ((f (a + 1) (b + 1)).x, (f (a + 1) (b + 1)).y),
             some ((f (a + 1) b).x, (f (a + 1) b).y),
             some ((f a b).x, (f a b).y)] }

/-- Specification-side description of the constructed dataset (spec §4.1
steps 4–6): one cell per interior grid offset, in row-major `(i, j)`
order. -/
def meshCellsSpec (f : ℕ → ℕ → Row) (start : ℤ) (cI cJ : ℕ) : List Cell :=
  (List.range (cI - 1)).flatMap fun (a : ℕ) => (List.range (cJ - 1)).map fun (b : ℕ) =>
    cellAt f start a b

/-- Strict ascending `(I, J)` order between rows. -/
def rowLt (r s : Row) : Prop := r.i < s.i ∨ (r.i = s.i ∧ r.j < s.j)

instance : IsAntisymm Row rowLt :=
  ⟨fun a b h1 h2 => (show False by unfold rowLt at h1 h2; omega).elim⟩

/-- Ascending lexicographic order on `(I, J)` key pairs. -/
def pairLe (p q : ℤ × ℤ) : Prop := p.1 < q.1 ∨ (p.1 = q.1 ∧ p.2 ≤ q.2)

instance : IsAntisymm (ℤ × ℤ) pairLe :=
  ⟨fun a b h1 h2 => by
    unfold pairLe at h1 h2
    have hh : a.1 = b.1 ∧ a.2 = b.2 := by omega
    exact Prod.ext hh.1 hh.2⟩

/-- The concrete 3×3 scenario of spec §8: `I, J ∈ {0,1,2}`, `X = I`,
`Y = J`, `value = I + J`. -/
def rows3x3 : List Row :=
  [⟨0, 0, 0, 0, 0⟩, ⟨0, 1, 0, 1, 1⟩, ⟨0, 2, 0, 2, 2⟩,
   ⟨1, 0, 1, 0, 1⟩, ⟨1, 1, 1, 1, 2⟩, ⟨1, 2, 1, 2, 3⟩,
   ⟨2, 0, 2, 0, 2⟩, ⟨2, 1, 2, 1, 3⟩, ⟨2, 2, 2, 2, 4⟩]

/-- A malformed 9-row table: the `(0,0)` point appears twice and `(2,2)` is
missing, so the `(i,j)` pairs do not cover the 3×3 index range. -/
def dupRows : List Row :=
  [⟨0, 0, 0, 0, 0⟩, ⟨0, 0, 0, 0, 0⟩, ⟨0, 1, 0, 1, 1⟩, ⟨0, 2, 0, 2, 2⟩,
   ⟨1, 0, 1, 0, 1⟩, ⟨1, 1, 1, 1, 2⟩, ⟨1, 2, 1, 2, 3⟩,
   ⟨2, 0, 2, 0, 2⟩, ⟨2, 1, 2, 1, 3⟩]

/-- Corner function of a concrete unit-spaced 2×2 grid. -/
def wRow (a b : ℕ) : Row := { i := a, j := b, x := a, y := b, v := 0 }

/-- The 2×2 grid table itself. -/
def wRows : List Row := canonicalRows wRow 2 2

/-- Corner function of a concrete unit-spaced 3×3 grid with `v = a + b`. -/
def wRow3 (a b : ℕ) : Row := { i := a, j := b, x := a, y := b, v := (a : ℚ) + b }

/-- The 3×3 grid table itself. -/
def wRows3 : List Row := canonicalRows wRow3 3 3

lemma le_foldl_max_init (xs : List ℤ) : ∀ a : ℤ, a ≤ xs.foldl max a := by
  induction xs with
  | nil => intro a; exact le_refl a
  | cons x xs ih =>
    intro a
    exact le_trans (le_max_left a x) (ih (max a x))

lemma le_foldl_max_mem (xs : List ℤ) : ∀ (a y : ℤ), y ∈ xs → y ≤ xs.foldl max a := by
  induction xs with
  | nil => intro a y hy; cases hy
  | cons x xs ih =>
    intro a y hy
    rcases List.mem_cons.mp hy with h | h
    · subst h
      exact le_trans (le_max_right a y) (le_foldl_max_init xs (max a y))
    · exact ih (max a x) y h

lemma foldl_max_mem (xs : List ℤ) : ∀ a : ℤ, xs.foldl max a ∈ a :: xs := by
  induction xs with
  | nil => intro a; simp
  | cons x xs ih =>
    intro a
    rw [List.foldl_cons]
    rcases List.mem_cons.mp (ih (max a x)) with h | h
    · rw [h]
      rcases max_choice a x with hm | hm <;> rw [hm]
      · exact List.mem_cons_self _ _
      · exact List.mem_cons_of_mem _ (List.mem_cons_self _ _)
    · exact List.mem_cons_of_mem _ (List.mem_cons_of_mem _ h)

lemma colMax_mem {l : List ℤ} (h : l ≠ []) : colMax l ∈ l := by
  cases l with
  | nil => exact absurd rfl h
  | cons x xs =>
    have := foldl_max_mem xs x
    simpa [colMax] using this

lemma le_colMax {l : List ℤ} {y : ℤ} (h : y ∈ l) : y ≤ colMax l := by
  cases l with
  | nil => cases h
  | cons x xs =>
    rcases List.mem_cons.mp h with h | h
    · subst h; exact le_foldl_max_init xs y
    · exact le_foldl_max_mem xs x y h

lemma colMax_eq_of {l : List ℤ} {a : ℤ} (ha : a ∈ l) (hub : ∀ y ∈ l, y ≤ a) :
    colMax l = a := by
  have h1 : colMax l ≤ a := hub _ (colMax_mem (List.ne_nil_of_mem ha))
  exact le_antisymm h1 (le_colMax ha)

-- divmod
lemma divmod_unique {c : ℕ} (d : ℕ) {r : ℕ} (h : r < c) :
    (c * d + r) / c = d ∧ (c * d + r) % c = r := by
  have hc : 0 < c := by omega
  constructor
  · rw [Nat.mul_add_div hc, Nat.div_eq_of_lt h]
    omega
  · rw [Nat.mul_add_mod, Nat.mod_eq_of_lt h]

-- range decomposition
lemma range_mul (cI cJ : ℕ) :
    List.range (cI * cJ) = (List.range cI).flatMap fun a => (List.range cJ).map fun b => cJ * a + b := by
  induction cI with
  | zero => simp
  | succ m ih =>
    rw [Nat.succ_mul, List.range_add, ih, List.range_succ, List.flatMap_append]
    congr 1
    simp only [List.flatMap_cons, List.flatMap_nil, List.append_nil]
    apply List.map_congr_left
    intro b _
    rw [Nat.mul_comm m cJ]


lemma flat_length (f : ℕ → ℕ → Row) (cJ n : ℕ) : (flatRows f cJ n).length = n := by
  simp [flatRows]

lemma flat_getElem? (f : ℕ → ℕ → Row) (cJ n m : ℕ) (hm : m < n) :
    (flatRows f cJ n)[m]? = some (f (m / cJ) (m % cJ)) := by
  rw [flatRows, List.getElem?_map, List.getElem?_range hm]
  rfl

lemma canonicalRows_eq_flat (f : ℕ → ℕ → Row) (cI cJ : ℕ) :
    canonicalRows f cI cJ = flatRows f cJ (cI * cJ) := by
  rw [flatRows, range_mul, List.map_flatMap]
  apply List.flatMap_congr
  intro a _
  rw [List.map_map]
  apply List.map_congr_left
  intro b hb
  have hb2 : b < cJ := List.mem_range.mp hb
  have h := divmod_unique a hb2
  simp [Function.comp, h.1, h.2]

lemma key_lt_of_flat {start : ℤ} {cI cJ : ℕ} {f : ℕ → ℕ → Row}
    (hkey : ∀ a b, a < cI → b < cJ → (f a b).i = start + a ∧ (f a b).j = start + b) :
    (flatRows f cJ (cI * cJ)).Pairwise rowLt := by
  rcases Nat.eq_zero_or_pos cJ with hcJ | hcJ
  · subst hcJ
    simp [flatRows, Nat.mul_zero]
  rw [List.pairwise_iff_getElem]
  intro p q hp hq hpq
  simp only [flatRows, List.length_map, List.length_range] at hp hq
  simp only [flatRows, List.getElem_map, List.getElem_range]
  have hpd : p / cJ < cI := (Nat.div_lt_iff_lt_mul hcJ).mpr hp
  have hqd : q / cJ < cI := (Nat.div_lt_iff_lt_mul hcJ).mpr hq
  have hpm : p % cJ < cJ := Nat.mod_lt _ hcJ
  have hqm : q % cJ < cJ := Nat.mod_lt _ hcJ
  obtain ⟨hpi, hpj⟩ := hkey _ _ hpd hpm
  obtain ⟨hqi, hqj⟩ := hkey _ _ hqd hqm
  unfold rowLt
  rw [hpi, hpj, hqi, hqj]
  have hdle : p / cJ ≤ q / cJ := Nat.div_le_div_right (le_of_lt hpq)
  rcases lt_or_eq_of_le hdle with hd | hd
  · left
    omega
  · right
    refine ⟨by omega, ?_⟩
    have e1 := Nat.div_add_mod p cJ
    have e2 := Nat.div_add_mod q cJ
    rw [← e1, ← e2, hd] at hpq
    have hmm := Nat.lt_of_add_lt_add_left hpq
    omega

lemma sorted_sortRows (rows : List Row) : (sortRows rows).Pairwise rowLe :=
  List.sorted_insertionSort rowLe rows

lemma perm_sortRows (rows : List Row) : (sortRows rows).Perm rows :=
  List.perm_insertionSort rowLe rows

lemma rowLt_key_ne {r s : Row} (h : rowLt r s) : keyOf r ≠ keyOf s := by
  unfold rowLt at h
  intro he
  unfold keyOf at he
  rw [Prod.mk.injEq] at he
  omega

lemma rowLe_ne_lt {r s : Row} (h1 : rowLe r s) (h2 : keyOf r ≠ keyOf s) : rowLt r s := by
  unfold rowLe at h1
  unfold rowLt
  have hne : ¬(r.i = s.i ∧ r.j = s.j) := by
    intro hh
    exact h2 (by unfold keyOf; rw [hh.1, hh.2])
  omega

lemma sortRows_eq_flat {start : ℤ} {cI cJ : ℕ} {f : ℕ → ℕ → Row} {rows : List Row}
    (hkey : ∀ a b, a < cI → b < cJ → (f a b).i = start + a ∧ (f a b).j = start + b)
    (hperm : rows.Perm (canonicalRows f cI cJ)) :
    sortRows rows = flatRows f cJ (cI * cJ) := by
  have hflat := key_lt_of_flat hkey
  have hps : (sortRows rows).Perm (flatRows f cJ (cI * cJ)) :=
    (perm_sortRows rows).trans ((canonicalRows_eq_flat f cI cJ) ▸ hperm)
  have hkeysNodupFlat : ((flatRows f cJ (cI * cJ)).map keyOf).Nodup :=
    List.pairwise_map.mpr (hflat.imp fun h => rowLt_key_ne h)
  have hkeysNodupS : ((sortRows rows).map keyOf).Nodup :=
    ((hps.map keyOf).symm).nodup hkeysNodupFlat
  have hpairNe : (sortRows rows).Pairwise fun a b => keyOf a ≠ keyOf b :=
    List.pairwise_map.mp hkeysNodupS
  have hlt : (sortRows rows).Pairwise rowLt :=
    ((sorted_sortRows rows).and hpairNe).imp fun h => rowLe_ne_lt h.1 h.2
  exact List.eq_of_perm_of_sorted hps hlt hflat

lemma mem_canonicalRows {f : ℕ → ℕ → Row} {cI cJ : ℕ} {r : Row} :
    r ∈ canonicalRows f cI cJ ↔ ∃ a, a < cI ∧ ∃ b, b < cJ ∧ f a b = r := by
  simp [canonicalRows, List.mem_flatMap, List.mem_map, List.mem_range]

lemma colMax_i {start : ℤ} {cI cJ : ℕ} {f : ℕ → ℕ → Row} {rows : List Row}
    (hI : 0 < cI) (hJ : 0 < cJ)
    (hkey : ∀ a b, a < cI → b < cJ → (f a b).i = start + a ∧ (f a b).j = start + b)
    (hperm : rows.Perm (canonicalRows f cI cJ)) :
    colMax (rows.map Row.i) = start + ((cI - 1 : ℕ) : ℤ) := by
  apply colMax_eq_of
  · rw [List.mem_map]
    refine ⟨f (cI - 1) 0, ?_, ?_⟩
    · exact hperm.mem_iff.mpr (mem_canonicalRows.mpr ⟨cI - 1, by omega, 0, hJ, rfl⟩)
    · exact (hkey (cI - 1) 0 (by omega) hJ).1
  · intro y hy
    rw [List.mem_map] at hy
    obtain ⟨r, hr, rfl⟩ := hy
    obtain ⟨a, ha, b, hb, hfr⟩ := mem_canonicalRows.mp (hperm.mem_iff.mp hr)
    subst hfr
    rw [(hkey a b ha hb).1]
    have hle : a ≤ cI - 1 := by omega
    omega

lemma colMax_j {start : ℤ} {cI cJ : ℕ} {f : ℕ → ℕ → Row} {rows : List Row}
    (hI : 0 < cI) (hJ : 0 < cJ)
    (hkey : ∀ a b, a < cI → b < cJ → (f a b).i = start + a ∧ (f a b).j = start + b)
    (hperm : rows.Perm (canonicalRows f cI cJ)) :
    colMax (rows.map Row.j) = start + ((cJ - 1 : ℕ) : ℤ) := by
  apply colMax_eq_of
  · rw [List.mem_map]
    refine ⟨f 0 (cJ - 1), ?_, ?_⟩
    · exact hperm.mem_iff.mpr (mem_canonicalRows.mpr ⟨0, hI, cJ - 1, by omega, rfl⟩)
    · exact (hkey 0 (cJ - 1) hI (by omega)).2
  · intro y hy
    rw [List.mem_map] at hy
    obtain ⟨r, hr, rfl⟩ := hy
    obtain ⟨a, ha, b, hb, hfr⟩ := mem_canonicalRows.mp (hperm.mem_iff.mp hr)
    subst hfr
    rw [(hkey a b ha hb).2]
    have hle : b ≤ cJ - 1 := by omega
    omega

lemma nunique_j {start : ℤ} {cI cJ : ℕ} {f : ℕ → ℕ → Row} {rows : List Row}
    (hI : 0 < cI) (_hJ : 0 < cJ)
    (hkey : ∀ a b, a < cI → b < cJ → (f a b).i = start + a ∧ (f a b).j = start + b)
    (hperm : rows.Perm (canonicalRows f cI cJ)) :
    nunique (rows.map Row.j) = cJ := by
  rw [nunique, ← List.card_toFinset]
  have hinj : Function.Injective fun b : ℕ => start + (b : ℤ) := by
    intro b1 b2 h
    simp only at h
    omega
  have hset : (rows.map Row.j).toFinset
      = Finset.image (fun b : ℕ => start + (b : ℤ)) (Finset.range cJ) := by
    apply Finset.ext
    intro z
    simp only [List.mem_toFinset, List.mem_map, Finset.mem_image, Finset.mem_range]
    constructor
    · rintro ⟨r, hr, rfl⟩
      obtain ⟨a, ha, b, hb, hfr⟩ := mem_canonicalRows.mp (hperm.mem_iff.mp hr)
      subst hfr
      exact ⟨b, hb, ((hkey a b ha hb).2).symm⟩
    · rintro ⟨b, hb, rfl⟩
      exact ⟨f 0 b, hperm.mem_iff.mpr (mem_canonicalRows.mpr ⟨0, hI, b, hb, rfl⟩),
        (hkey 0 b hI hb).2⟩
  rw [hset, Finset.card_image_of_injective _ hinj, Finset.card_range]

lemma ptAt_flat (f : ℕ → ℕ → Row) (cJ n m : ℕ) (hm : m < n) :
    ptAt (flatRows f cJ n) m = some ((f (m / cJ) (m % cJ)).x, (f (m / cJ) (m % cJ)).y) := by
  rw [ptAt, flat_getElem? f cJ n m hm]
  rfl

lemma grid_bound {cI cJ d r : ℕ} (hd : d < cI) (hr : r < cJ) : cJ * d + r < cI * cJ :=
  calc cJ * d + r < cJ * d + cJ := Nat.add_lt_add_left hr _
    _ = cJ * (d + 1) := (Nat.mul_succ cJ d).symm
    _ ≤ cJ * cI := Nat.mul_le_mul_left cJ hd
    _ = cI * cJ := Nat.mul_comm cJ cI

lemma filterMap_eq_map_of {α β : Type} (F : α → Option β) (G : α → β) :
    ∀ l : List α, (∀ x ∈ l, F x = some (G x)) → l.filterMap F = l.map G := by
  intro l
  induction l with
  | nil => intro _; rfl
  | cons x xs ih =>
    intro h
    simp only [List.filterMap_cons, h x (List.mem_cons_self x xs), List.map_cons]
    rw [ih fun y hy => h y (List.mem_cons_of_mem x hy)]

lemma filterMap_grid_row (cJ : ℕ) (hJ0 : 0 < cJ) (cI : ℕ) (g : ℕ → ℕ → Cell) (a : ℕ) :
    ((List.range cJ).filterMap fun b =>
        if (cJ * a + b) / cJ ≠ cI - 1 ∧ (cJ * a + b) % cJ ≠ cJ - 1
        then some (g ((cJ * a + b) / cJ) ((cJ * a + b) % cJ)) else none)
      = if a = cI - 1 then [] else (List.range (cJ - 1)).map fun b => g a b := by
  have hpoint : ∀ b ∈ List.range cJ,
      (if (cJ * a + b) / cJ ≠ cI - 1 ∧ (cJ * a + b) % cJ ≠ cJ - 1
        then some (g ((cJ * a + b) / cJ) ((cJ * a + b) % cJ)) else none)
      = (if a ≠ cI - 1 ∧ b ≠ cJ - 1 then some (g a b) else none) := by
    intro b hb
    have hb2 : b < cJ := List.mem_range.mp hb
    have hd := divmod_unique a hb2
    rw [hd.1, hd.2]
  rw [List.filterMap_congr hpoint]
  by_cases ha : a = cI - 1
  · rw [if_pos ha, List.filterMap_eq_nil_iff]
    intro b _
    rw [if_neg fun hh => hh.1 ha]
  · rw [if_neg ha]
    have hsplit : List.range cJ = List.range (cJ - 1) ++ [cJ - 1] := by
      conv_lhs => rw [show cJ = (cJ - 1) + 1 by omega]
      rw [List.range_succ]
    rw [hsplit, List.filterMap_append]
    have h1 : List.filterMap
        (fun b => if a ≠ cI - 1 ∧ b ≠ cJ - 1 then some (g a b) else none) [cJ - 1] = [] := by
      simp
    have h2 : List.filterMap
        (fun b => if a ≠ cI - 1 ∧ b ≠ cJ - 1 then some (g a b) else none) (List.range (cJ - 1))
        = List.map (fun b => g a b) (List.range (cJ - 1)) := by
      apply filterMap_eq_map_of
      intro b hb
      rw [if_pos ⟨ha, by have := List.mem_range.mp hb; omega⟩]
    rw [h1, h2, List.append_nil]

lemma filterMap_grid (cI cJ : ℕ) (hI : 2 ≤ cI) (hJ : 2 ≤ cJ) (g : ℕ → ℕ → Cell) :
    ((List.range (cI * cJ)).filterMap fun k =>
        if k / cJ ≠ cI - 1 ∧ k % cJ ≠ cJ - 1 then some (g (k / cJ) (k % cJ)) else none)
      = (List.range (cI - 1)).flatMap fun a => (List.range (cJ - 1)).map fun b => g a b := by
  rw [range_mul cI cJ, List.filterMap_flatMap]
  have hstep : ∀ a ∈ List.range cI,
      List.filterMap
        (fun k => if k / cJ ≠ cI - 1 ∧ k % cJ ≠ cJ - 1 then some (g (k / cJ) (k % cJ)) else none)
        ((List.range cJ).map fun b => cJ * a + b)
      = if a = cI - 1 then [] else (List.range (cJ - 1)).map fun b => g a b := by
    intro a _
    rw [List.filterMap_map]
    exact filterMap_grid_row cJ (by omega) cI g a
  rw [List.flatMap_congr hstep]
  have hsplit : List.range cI = List.range (cI - 1) ++ [cI - 1] := by
    conv_lhs => rw [show cI = (cI - 1) + 1 by omega]
    rw [List.range_succ]
  rw [hsplit, List.flatMap_append]
  have h1 : ([cI - 1] : List ℕ).flatMap
      (fun a => if a = cI - 1 then [] else (List.range (cJ - 1)).map fun b => g a b) = [] := by
    simp
  rw [h1, List.append_nil]
  apply List.flatMap_congr
  intro a ha
  rw [if_neg (by have := List.mem_range.mp ha; omega)]

lemma set_gdf_dense {start : ℤ} {cI cJ : ℕ} {f : ℕ → ℕ → Row} {rows : List Row}
    (hI : 2 ≤ cI) (hJ : 2 ≤ cJ)
    (hkey : ∀ a b, a < cI → b < cJ → (f a b).i = start + a ∧ (f a b).j = start + b)
    (hperm : rows.Perm (canonicalRows f cI cJ)) :
    set_gdf rows = meshCellsSpec f start cI cJ := by
  have hI0 : 0 < cI := by omega
  have hJ0 : 0 < cJ := by omega
  have hs := sortRows_eq_flat hkey hperm
  have hmi := colMax_i hI0 hJ0 hkey hperm
  have hmj := colMax_j hI0 hJ0 hkey hperm
  have hnj := nunique_j hI0 hJ0 hkey hperm
  unfold set_gdf
  rw [hs, hmi, hmj, hnj, flat_length]
  refine Eq.trans (List.filterMap_congr ?_) (filterMap_grid cI cJ hI hJ (cellAt f start))
  intro k hk
  have hk2 : k < cI * cJ := List.mem_range.mp hk
  obtain ⟨d, r, hr, rfl⟩ : ∃ d r, r < cJ ∧ k = cJ * d + r :=
    ⟨k / cJ, k % cJ, Nat.mod_lt _ hJ0, by rw [Nat.div_add_mod]⟩
  have hdm := divmod_unique d hr
  have hd : d < cI := by
    by_contra hcon
    push_neg at hcon
    have hge : cI * cJ ≤ cJ * d := by
      calc cI * cJ = cJ * cI := Nat.mul_comm cI cJ
        _ ≤ cJ * d := Nat.mul_le_mul_left cJ hcon
    omega
  obtain ⟨hfi, hfj⟩ := hkey d r hd hr
  simp only [flat_getElem? f cJ (cI * cJ) (cJ * d + r) hk2, Option.some_bind, hdm.1, hdm.2]
  by_cases hcond : d ≠ cI - 1 ∧ r ≠ cJ - 1
  · obtain ⟨hc1, hc2⟩ := hcond
    rw [if_pos (show (f d r).i ≠ start + ((cI - 1 : ℕ) : ℤ) ∧ (f d r).j ≠ start + ((cJ - 1 : ℕ) : ℤ) from
          ⟨by rw [hfi]; omega, by rw [hfj]; omega⟩),
        if_pos (show d ≠ cI - 1 ∧ r ≠ cJ - 1 from ⟨hc1, hc2⟩)]
    have hr2 : r + 1 < cJ := by omega
    have hd2 : d + 1 < cI := by omega
    have e2 : cJ * d + r + 1 = cJ * d + (r + 1) := by
      generalize cJ * d = t
      omega
    have e3 : cJ * d + r + cJ = cJ * (d + 1) + r := by
      rw [Nat.mul_succ]
      generalize cJ * d = t
      omega
    have e4 : cJ * d + r + cJ + 1 = cJ * (d + 1) + (r + 1) := by
      rw [Nat.mul_succ]
      generalize cJ * d = t
      omega
    have p1 := ptAt_flat f cJ (cI * cJ) (cJ * d + r) hk2
    rw [hdm.1, hdm.2] at p1
    have p2 := ptAt_flat f cJ (cI * cJ) (cJ * d + (r + 1)) (grid_bound hd hr2)
    rw [(divmod_unique d hr2).1, (divmod_unique d hr2).2] at p2
    have p3 := ptAt_flat f cJ (cI * cJ) (cJ * (d + 1) + (r + 1)) (grid_bound hd2 hr2)
    rw [(divmod_unique (d + 1) hr2).1, (divmod_unique (d + 1) hr2).2] at p3
    have p4 := ptAt_flat f cJ (cI * cJ) (cJ * (d + 1) + r) (grid_bound hd2 hr)
    rw [(divmod_unique (d + 1) hr).1, (divmod_unique (d + 1) hr).2] at p4
    rw [e2, e4, e3, p1, p2, p3, p4]
    simp only [cellAt, mkRing, hfi, hfj]
    rfl
  · rw [if_neg hcond, if_neg ?hgoal]
    case hgoal =>
      intro hh
      exact hcond ⟨fun he => hh.1 (by rw [hfi, he]), fun he => hh.2 (by rw [hfj, he])⟩

lemma meshCellsSpec_length (f : ℕ → ℕ → Row) (start : ℤ) (cI cJ : ℕ) :
    (meshCellsSpec f start cI cJ).length = (cI - 1) * (cJ - 1) := by
  rw [meshCellsSpec, List.length_flatMap]
  have hlen : (List.map (List.length ∘ fun a => (List.range (cJ - 1)).map fun b => cellAt f start a b)
      (List.range (cI - 1))) = List.replicate (cI - 1) (cJ - 1) := by
    have : ∀ a ∈ List.range (cI - 1),
        (List.length ∘ fun a => (List.range (cJ - 1)).map fun b => cellAt f start a b) a
        = cJ - 1 := by
      intro a _
      simp [Function.comp]
    rw [List.map_congr_left this]
    simp [List.map_const]
  rw [hlen, List.sum_replicate, smul_eq_mul]

lemma meshCellsSpec_ring {f : ℕ → ℕ → Row} {start : ℤ} {cI cJ : ℕ} {c : Cell}
    (hc : c ∈ meshCellsSpec f start cI cJ) :
    ∃ p1 p2 p3 p4, c.ring = [some p1, some p2, some p3, some p4, some p1] := by
  rw [meshCellsSpec] at hc
  rw [List.mem_flatMap] at hc
  obtain ⟨a, _, hc⟩ := hc
  rw [List.mem_map] at hc
  obtain ⟨b, _, rfl⟩ := hc
  exact ⟨_, _, _, _, rfl⟩

/-- C4: on the 3×3 unit grid with `value = I + J`, `set_gdf` yields 4 cells
owned by `(0,0), (0,1), (1,0), (1,1)` in that order, with attribute values
`0, 1, 1, 2`, and the ring of cell `(0,0)` is the closed quadrilateral
through `(0,0), (0,1), (1,1), (1,0)`. -/
theorem three_by_three_scenario :
    (set_gdf rows3x3).length = 4
    ∧ (set_gdf rows3x3).map (fun c => (c.i, c.j)) = [(0, 0), (0, 1), (1, 0), (1, 1)]
    ∧ (set_gdf rows3x3).map Cell.v = [0, 1, 1, 2]
    ∧ ((set_gdf rows3x3).head?).map Cell.ring
        = some [some (0, 0), some (0, 1), some (1, 1), some (1, 0), some (0, 0)] := by
  decide

/-- C3 counterexample: a table with the `(0,0)` pair duplicated and `(2,2)`
missing is not rejected by `set_gdf` — no `MalformedGridError` exists in the
code — and a (wrong, 5-cell) dataset is produced and stored, contradicting
"fails … and produces no dataset".  The upload check of `meshview.main`
does reject this table. -/
theorem malformed_grid_no_error_counterexample :
    (dupRows.map keyOf).count (0, 0) = 2
    ∧ ((2 : ℤ), (2 : ℤ)) ∉ dupRows.map keyOf
    ∧ dupRows.length = 9
    ∧ set_gdf dupRows ≠ []
    ∧ (set_gdf dupRows).length = 5
    ∧ is_correct_ij 0 3 3 dupRows = false := by
  decide

/-- C5: `zip_gis` runs the GIS serializer under
`warnings.catch_warnings(action='ignore', category=UserWarning)`, so no
`UserWarning` — in particular the "no spatial reference" advisory emitted
when `crs` is `None` — ever surfaces, and the produced archive is the same
as if no warning had been emitted at all. -/
theorem zip_gis_suppresses_user_warnings (m : Meshs) (tmpdir : String)
    (written : List (String × String)) (emitted : List GisWarning) :
    ((m.zip_gis tmpdir written emitted).surfacedWarnings.all fun w => !w.isUserWarning) = true
    ∧ (m.zip_gis tmpdir written emitted).archive = (m.zip_gis tmpdir written []).archive := by
  constructor
  · simp only [Meshs.zip_gis]
    rw [List.all_eq_true]
    intro w hw
    exact (List.mem_filter.mp hw).2
  · rfl

/-- C6: `zip_map` returns an archive whose sole entry is `map.html` carrying
exactly the figure's HTML serialization, and allocates no temporary
directory (pure in-memory serialization via `writestr`). -/
theorem zip_map_single_html_entry (m : Meshs) (figHtml : String) :
    (m.zip_map figHtml).entries = [("map.html", figHtml)]
    ∧ (m.zip_map figHtml).usedTmpDir = false :=
  ⟨rfl, rfl⟩

/-- C7 counterexample: `"jpg"` is not among `{png, pdf, svg}`, yet
`zip_plot` does not fail — there is no `UnsupportedFormatError` or any
format check in the code — and happily archives `plot.jpg`. -/
theorem zip_plot_no_format_error_counterexample :
    "jpg" ∉ EXT_PLOT
    ∧ (Meshs.zip_plot { epsg := none, gdf := [] } "tmpA" (fun _ => "IMGBYTES") "jpg").entries
        = [("plot.jpg", "IMGBYTES")]
    ∧ (Meshs.zip_plot { epsg := none, gdf := [] } "tmpA" (fun _ => "IMGBYTES") "jpg").usedTmpDir
        = true := by
  refine ⟨by decide, rfl, rfl⟩

/-- C7 amended: `zip_plot` performs no format validation; for every
extension string it archives the single file `plot.<ext>` with the bytes the
figure serializer produced.  The `{png, pdf, svg}` restriction lives only in
the UI option list `EXT_PLOT`. -/
theorem zip_plot_archives_any_ext (m : Meshs) (tmpdir : String)
    (figSave : String → String) (ext : String) :
    (m.zip_plot tmpdir figSave ext).entries = [("plot" ++ "." ++ ext, figSave ext)]
    ∧ EXT_PLOT = ["png", "pdf", "svg"] :=
  ⟨rfl, rfl⟩

/-- C8: an EPSG code pyproj cannot resolve is flagged (not raised through)
by `caption_crs_name` at the resolution attempt; `main` then resets the
session EPSG to `None`, which disables map rendering and builds the mesh
dataset without spatial reference — the pipeline does not fail. -/
theorem unknown_epsg_flagged_and_recovered (resolveEpsg : ℤ → Option String) (e : ℤ)
    (rows : List Row) (h : resolveEpsg e = none) :
    caption_crs_name resolveEpsg e = false
    ∧ main_validate_epsg resolveEpsg (some e) = none
    ∧ renders_map (main_validate_epsg resolveEpsg (some e)) = false
    ∧ (Meshs.build rows (main_validate_epsg resolveEpsg (some e))).epsg = none := by
  have hc : caption_crs_name resolveEpsg e = false := by
    simp [caption_crs_name, h]
  refine ⟨hc, ?_, ?_, ?_⟩ <;> simp [main_validate_epsg, renders_map, Meshs.build, hc]

/-- C8 witness: the spec's example code `999999999` with a resolver that
knows no codes. -/
theorem unknown_epsg_flagged_and_recovered_witness :
    caption_crs_name (fun _ => none) 999999999 = false
    ∧ main_validate_epsg (fun _ => none) (some 999999999) = none
    ∧ renders_map (main_validate_epsg (fun _ => none) (some 999999999)) = false
    ∧ (Meshs.build [] (main_validate_epsg (fun _ => none) (some 999999999))).epsg = none :=
  unknown_epsg_flagged_and_recovered (fun _ => none) 999999999 [] rfl

/-- C9: the three export operations are pure functions of their inputs, and
the temporary-directory name (fresh on every call) never leaks into the
archive's logical content — entry names come from `os.path.basename` — so
two calls on identical inputs produce identical entry names and payloads. -/
theorem exports_idempotent_logical_content (m : Meshs) (t1 t2 : String)
    (figSave : String → String) (ext figHtml : String)
    (written : List (String × String)) (emitted : List GisWarning) :
    m.zip_plot t1 figSave ext = m.zip_plot t2 figSave ext
    ∧ m.zip_map figHtml = m.zip_map figHtml
    ∧ m.zip_gis t1 written emitted = m.zip_gis t2 written emitted :=
  ⟨rfl, rfl, rfl⟩

/-- C10: both rendering operations drop exactly the cells whose attribute
value equals the dummy value (all cells are kept when it is `None`), and
neither modifies the stored dataset. -/
theorem dummy_value_filtering (m : Meshs) (d : ℚ) (c : Cell) :
    (c ∈ (m.choropleth_map (some d)).1 ↔ c ∈ m.gdf ∧ c.v ≠ d)
    ∧ (m.choropleth_map none).1 = m.gdf
    ∧ (m.choropleth_map (some d)).2 = m ∧ (m.choropleth_map none).2 = m
    ∧ (c ∈ (m.plot (some d)).1 ↔ c ∈ m.gdf ∧ c.v ≠ d)
    ∧ (m.plot none).1 = m.gdf
    ∧ (m.plot (some d)).2 = m ∧ (m.plot none).2 = m := by
  refine ⟨?_, rfl, rfl, rfl, ?_, rfl, rfl, rfl⟩ <;>
    simp [Meshs.choropleth_map, Meshs.plot, List.mem_filter]

lemma canonicalKeys_eq (start : ℤ) (cI cJ : ℕ) :
    canonicalKeys start cI cJ
      = (canonicalRows (fun a b => ⟨start + (a : ℤ), start + (b : ℤ), 0, 0, 0⟩) cI cJ).map keyOf := by
  rw [canonicalRows, List.map_flatMap]
  apply List.flatMap_congr
  intro a _
  rw [List.map_map]
  rfl

lemma rowLt_pairLe {r s : Row} (h : rowLt r s) : pairLe (keyOf r) (keyOf s) := by
  unfold rowLt at h
  show r.i < s.i ∨ (r.i = s.i ∧ r.j ≤ s.j)
  omega

/-- C1: for every valid dense grid with `cnt_i, cnt_j ≥ 2` — any
permutation `rows` of the full `cnt_i × cnt_j` family of corner points `f` —
`set_gdf` produces exactly `(cnt_i - 1) * (cnt_j - 1)` cells, each carrying
a closed 4-vertex ring (5 stored vertices, last = first). -/
theorem dense_grid_cell_count {start : ℤ} {cI cJ : ℕ} {f : ℕ → ℕ → Row} {rows : List Row}
    (hI : 2 ≤ cI) (hJ : 2 ≤ cJ)
    (hkey : ∀ a b, a < cI → b < cJ → (f a b).i = start + a ∧ (f a b).j = start + b)
    (hperm : rows.Perm (canonicalRows f cI cJ)) :
    (set_gdf rows).length = (cI - 1) * (cJ - 1)
    ∧ ∀ c ∈ set_gdf rows,
        ∃ p1 p2 p3 p4, c.ring = [some p1, some p2, some p3, some p4, some p1] := by
  rw [set_gdf_dense hI hJ hkey hperm]
  exact ⟨meshCellsSpec_length f start cI cJ, fun c hc => meshCellsSpec_ring hc⟩

/-- C1 witness: the 2 × 2 unit grid yields exactly one cell. -/
theorem dense_grid_cell_count_witness : (set_gdf wRows).length = (2 - 1) * (2 - 1) :=
  (@dense_grid_cell_count 0 2 2 wRow wRows (by norm_num) (by norm_num)
    (fun a b _ _ => ⟨by simp [wRow], by simp [wRow]⟩) (List.Perm.refl _)).1

/-- C2: `set_gdf` sorts the table ascending by `(i, j)` — the sorted table
is exactly the row-major enumeration `canonicalRows`, so the point at sorted
position `k = a*cnt_j + b` has key `(start+a, start+b)`, and the rows at
positions `k+1`, `k+cnt_j+1`, `k+cnt_j` are its next-J, diagonal and next-I
neighbors — and the produced dataset is `meshCellsSpec`: every point off the
`max_i`/`max_j` border yields, still in `(i, j)` order, one cell whose ring
is built from those three offset rows (self, next-J, diagonal, next-I) and
whose value is the point's own attribute; border points yield nothing. -/
theorem dense_grid_offset_semantics {start : ℤ} {cI cJ : ℕ} {f : ℕ → ℕ → Row} {rows : List Row}
    (hI : 2 ≤ cI) (hJ : 2 ≤ cJ)
    (hkey : ∀ a b, a < cI → b < cJ → (f a b).i = start + a ∧ (f a b).j = start + b)
    (hperm : rows.Perm (canonicalRows f cI cJ)) :
    sortRows rows = canonicalRows f cI cJ
    ∧ set_gdf rows = meshCellsSpec f start cI cJ := by
  constructor
  · rw [sortRows_eq_flat hkey hperm, canonicalRows_eq_flat]
  · exact set_gdf_dense hI hJ hkey hperm

/-- C2 witness: the 3 × 3 unit grid with `v = a + b`. -/
theorem dense_grid_offset_semantics_witness :
    sortRows wRows3 = canonicalRows wRow3 3 3
    ∧ set_gdf wRows3 = meshCellsSpec wRow3 0 3 3 :=
  @dense_grid_offset_semantics 0 3 3 wRow3 wRows3 (by norm_num) (by norm_num)
    (fun a b _ _ => ⟨by simp [wRow3], by simp [wRow3]⟩) (List.Perm.refl _)

lemma canonicalKeys_length (start : ℤ) (cI cJ : ℕ) :
    (canonicalKeys start cI cJ).length = cI * cJ := by
  rw [canonicalKeys_eq, List.length_map, canonicalRows_eq_flat, flat_length]

lemma canonicalKeys_pairwise (start : ℤ) (cI cJ : ℕ) :
    (canonicalKeys start cI cJ).Pairwise pairLe := by
  rw [canonicalKeys_eq, canonicalRows_eq_flat]
  refine List.pairwise_map.mpr ?_
  have hflat := @key_lt_of_flat start cI cJ
    (fun a b => ⟨start + (a : ℤ), start + (b : ℤ), 0, 0, 0⟩)
    (fun a b _ _ => ⟨rfl, rfl⟩)
  exact hflat.imp fun hh => rowLt_pairLe hh

lemma sort_values_ij_perm (rows : List Row) :
    (sort_values_ij rows).Perm ((List.range rows.length).zip rows) :=
  List.perm_insertionSort labelLe _

lemma zip_range_keys (rows : List Row) :
    ((List.range rows.length).zip rows).map (fun p => keyOf p.2) = rows.map keyOf := by
  rw [show (fun p : ℕ × Row => keyOf p.2) = keyOf ∘ Prod.snd from rfl, ← List.map_map,
      List.map_snd_zip _ _ (by simp)]

/-- C3 amended: `set_gdf` itself never raises — validation lives upstream,
and is stricter than a well-formedness check.  The upload path of
`meshview.main` accepts a table exactly when its `(I, J)` columns, in file
order, are the dense row-major enumeration of the `cnt_i × cnt_j` index
range: a wrong row count, a missing or duplicated pair, or even a valid
grid uploaded in any other row order all make the pandas comparison against
`df_manual` fail (by `ValueError` on non-identical labels or by a cell
mismatch), the check returns `False`, an error message is shown, and no
mesh is built from that upload. -/
theorem upload_check_accepts_iff_dense (start : ℤ) (cI cJ : ℕ) (rows : List Row) :
    is_correct_ij start cI cJ rows = true
      ↔ rows.map keyOf = canonicalKeys start cI cJ := by
  constructor
  · intro h
    by_cases hcond : (sort_values_ij rows).map Prod.fst = List.range (cI * cJ)
    case neg =>
      rw [is_correct_ij, if_neg hcond] at h
      exact absurd h (by simp)
    rw [is_correct_ij, if_pos hcond, decide_eq_true_iff] at h
    have hperm := sort_values_ij_perm rows
    have hlenL : ((List.range rows.length).zip rows).length = rows.length := by
      rw [List.length_zip, List.length_range, Nat.min_self]
    have hlenS : (sort_values_ij rows).length = rows.length := by
      rw [hperm.length_eq, hlenL]
    have hSL : sort_values_ij rows = (List.range rows.length).zip rows := by
      apply List.ext_getElem (by rw [hlenS, hlenL])
      intro i h1 h2
      have hfst : (sort_values_ij rows)[i].1 = i := by
        have h3 := List.getElem_of_eq hcond
          (show i < (List.map Prod.fst (sort_values_ij rows)).length by
            rw [List.length_map]; exact h1)
        rw [List.getElem_map, List.getElem_range] at h3
        exact h3
      obtain ⟨j, hj, hji⟩ :=
        List.mem_iff_getElem.mp (hperm.mem_iff.mp (List.getElem_mem h1))
      have hj2 : j < rows.length := by rw [hlenL] at hj; exact hj
      have hLj : ((List.range rows.length).zip rows)[j] = (j, rows[j]) := by
        rw [List.getElem_zip, List.getElem_range]
      rw [hLj] at hji
      have hj_eq : j = i := by
        have h5 : j = (sort_values_ij rows)[i].1 := congrArg Prod.fst hji
        rw [hfst] at h5
        exact h5
      subst hj_eq
      rw [← hji, List.getElem_zip, List.getElem_range]
    rw [hSL, zip_range_keys] at h
    exact h
  · intro h
    have hn : rows.length = cI * cJ := by
      have h1 := congrArg List.length h
      rw [List.length_map, canonicalKeys_length] at h1
      exact h1
    have hkeysSorted : (rows.map keyOf).Pairwise pairLe := by
      rw [h]
      exact canonicalKeys_pairwise start cI cJ
    have hrowsSorted : rows.Pairwise rowLe :=
      (List.pairwise_map.mp hkeysSorted).imp fun hh => hh
    have hLsorted : ((List.range rows.length).zip rows).Pairwise labelLe := by
      rw [List.pairwise_iff_getElem] at hrowsSorted ⊢
      intro i j h1 h2 hij
      have h1b : i < rows.length := by
        rw [List.length_zip, List.length_range, Nat.min_self] at h1
        exact h1
      have h2b : j < rows.length := by
        rw [List.length_zip, List.length_range, Nat.min_self] at h2
        exact h2
      simp only [List.getElem_zip, List.getElem_range]
      exact hrowsSorted i j h1b h2b hij
    have hsorted_eq : sort_values_ij rows = (List.range rows.length).zip rows :=
      List.Sorted.insertionSort_eq hLsorted
    rw [is_correct_ij, hsorted_eq]
    have hfst2 : ((List.range rows.length).zip rows).map Prod.fst
        = List.range (cI * cJ) := by
      rw [List.map_fst_zip _ _ (by simp), hn]
    rw [if_pos hfst2, decide_eq_true_iff, zip_range_keys]
    exact h

end MeshView
